import Mathlib

/-!
Shallow embedding of the transaction-construction engine of `btcx_tools`
(`src/lib/transaction_builder.rs` and `src/lib/types.rs`), together with
theorems settling the specification claims about it.

Modelling conventions:
* `Amount` (u64 satoshis) is modelled as `Nat`; the amounts appearing in the
  claims are far below `2^64`, so wrap-around is irrelevant.
* `f32` fee rates are modelled as exact rationals `ℚ`.  The Rust cast
  `fee_rate as u64` (truncation towards zero, saturating at 0) is
  `ratTruncNat`, and `(x).ceil() as u64` is computed exactly in `feeOf`.
* Scripts are byte lists; `bitcoin::Address` is modelled by the locking
  script it resolves to (the builder only ever calls
  `address.script_pubkey()`).
* Transaction identifiers are opaque numbers (`txid : Nat`).
* `Transaction::weight`/`size` are delegated to the external primitives
  library in the source.  Modelled from the spec: the standard serialized
  weight with segregated-witness discounting (non-witness bytes counted
  four times, witness bytes once), exactly the rust-bitcoin
  `scaled_size` computation the source calls into.
* Fallible Rust functions returning `Result` are embedded with
  `Except Error`.  Selection routines are pure functions returning the
  chosen outputs; the derived `SigningInput` records (which the source
  stores in `self.inputs` while selecting) are recomputed deterministically
  from the selection, as spelled out in spec section 9.
-/

namespace Btcx

/-- Byte string, used for scripts, signature hashes and witness items. -/
abbrev Script := List Nat

/-- Model of `bitcoin::Address`: the builder only consults the locking
script derived from the address. -/
structure Addr where
  script_pubkey : Script
deriving DecidableEq, Repr

/-- Model of `types.rs` `Utxo`. -/
structure Utxo where
  txid : Nat
  vout : Nat
  amount : Nat
  script_pubkey : Script
  address : Option String
  confirmations : Option Nat
  block_height : Option Nat
  spendable : Bool
deriving DecidableEq, Repr

/-- Model of `types.rs` `SigningInput`. -/
structure SigningInput where
  txid : Nat
  vout : Nat
  amount : Nat
  script_pubkey : Script
  redeem_script : Option Script
  witness_script : Option Script
  sequence : Option Nat
deriving DecidableEq, Repr

/-- `SigningInput::new`: the optional fields start out `None`. -/
def SigningInput.new (txid vout amount : Nat) (spk : Script) : SigningInput :=
  ⟨txid, vout, amount, spk, none, none, none⟩

/-- Model of `types.rs` `OutputTarget`. -/
structure OutputTarget where
  address : Addr
  amount : Nat
  is_change : Bool
deriving DecidableEq, Repr

/-- `OutputTarget::new`. -/
def OutputTarget.new (a : Addr) (amount : Nat) : OutputTarget :=
  ⟨a, amount, false⟩

/-- `OutputTarget::new_change`. -/
def OutputTarget.new_change (a : Addr) (amount : Nat) : OutputTarget :=
  ⟨a, amount, true⟩

/-- Model of `types.rs` `CoinSelectionStrategy`. -/
inductive CoinSelectionStrategy where
  | smallestFirst
  | largestFirst
  | random
  | branchAndBound
deriving DecidableEq, Repr

/-- Model of `types.rs` `BtcNetwork`. -/
inductive BtcNetwork where
  | bitcoin
  | testnet
  | signet
  | regtest
deriving DecidableEq, Repr

/-- The error variants of `error.rs` reachable from the builder:
`Error::InsufficientFunds` and `Error::Custom(msg)`. -/
inductive Error where
  | insufficientFunds
  | custom (msg : String)
deriving DecidableEq, Repr

/-- Decidable equality of `Except` results, used to evaluate concrete
builds. -/
instance exceptDecidableEq {ε α : Type} [DecidableEq ε] [DecidableEq α] :
    DecidableEq (Except ε α) := fun a b =>
  match a, b with
  | .error x, .error y =>
    if h : x = y then .isTrue (by rw [h])
    else .isFalse (fun hc => h (Except.error.inj hc))
  | .error _, .ok _ => .isFalse (fun hc => Except.noConfusion hc)
  | .ok _, .error _ => .isFalse (fun hc => Except.noConfusion hc)
  | .ok x, .ok y =>
    if h : x = y then .isTrue (by rw [h])
    else .isFalse (fun hc => h (Except.ok.inj hc))

/-- Model of `transaction_builder.rs` `TxBuilderConfig`. -/
structure TxBuilderConfig where
  network : BtcNetwork
  fee_rate : ℚ
  dust_limit : Nat
  rbf : Bool
  rbf_sequence : Nat
  min_change : Nat
  coin_selection : CoinSelectionStrategy
  shuffle_inputs : Bool
  shuffle_outputs : Bool
deriving DecidableEq, Repr

/-- The `Default` impl of `TxBuilderConfig`, with the given network
substituted as in `TransactionBuilder::new`. -/
def TxBuilderConfig.defaultFor (network : BtcNetwork) : TxBuilderConfig :=
  ⟨network, 1, 546, false, 4294967293, 1000, .branchAndBound, true, true⟩

/-- Model of `bitcoin::TxIn`; `previous_output` is the pair txid/vout. -/
structure TxIn where
  previous_output : Nat × Nat
  script_sig : Script
  sequence : Nat
  witness : List Script
deriving DecidableEq, Repr

/-- Model of `bitcoin::TxOut`. -/
structure TxOut where
  value : Nat
  script_pubkey : Script
deriving DecidableEq, Repr

/-- Model of `bitcoin::Transaction`. -/
structure Transaction where
  version : Int
  lock_time : Nat
  input : List TxIn
  output : List TxOut
deriving DecidableEq, Repr

/-- Model of the `TransactionBuilder` struct (its accumulated state). -/
structure TransactionBuilder where
  config : TxBuilderConfig
  utxos : List Utxo
  outputs : List OutputTarget
  inputs : List SigningInput
  change_address : Option Addr
  lock_time : Option Nat
  version : Int
deriving DecidableEq, Repr

/-- `TransactionBuilder::new`: default configuration, empty state,
version 2. -/
def TransactionBuilder.new (network : BtcNetwork) : TransactionBuilder :=
  ⟨TxBuilderConfig.defaultFor network, [], [], [], none, none, 2⟩

/-- Truncation of a rational towards zero, saturating at zero below:
the semantics of the Rust cast `f32 as u64` used in
`select_utxos_greedy` (`self.config.fee_rate as u64`). -/
def ratTruncNat (q : ℚ) : Nat := q.num.toNat / q.den

/-- Length of the Bitcoin variable-length integer encoding. -/
def varIntLen (n : Nat) : Nat :=
  if n < 253 then 1
  else if n < 65536 then 3
  else if n < 4294967296 then 5
  else 9

/-- Serialized length of a witness stack. -/
def witnessLen (w : List Script) : Nat :=
  varIntLen w.length + (w.map (fun e => varIntLen e.length + e.length)).sum

/-- Non-witness serialized size of one input (outpoint, script, sequence). -/
def txInBaseSize (i : TxIn) : Nat :=
  36 + varIntLen i.script_sig.length + i.script_sig.length + 4

/-- Modelled from the spec: the external primitives library's scaled-size
computation underlying `Transaction::weight` and `Transaction::size`
(rust-bitcoin `scaled_size`): non-witness bytes are counted `scale` times,
witness bytes once, plus segwit marker/flag when any witness is present. -/
def txScaledSize (scale : Nat) (t : Transaction) : Nat :=
  let inputWeight :=
    (t.input.map (fun i =>
      scale * txInBaseSize i +
        (if i.witness.isEmpty then 0 else witnessLen i.witness))).sum
  let withWitness := (t.input.filter (fun i => !i.witness.isEmpty)).length
  let outputSize :=
    (t.output.map (fun o =>
      8 + varIntLen o.script_pubkey.length + o.script_pubkey.length)).sum
  let nonInputSize :=
    4 + 4 + varIntLen t.input.length + varIntLen t.output.length + outputSize
  if withWitness = 0 then nonInputSize * scale + inputWeight
  else nonInputSize * scale + inputWeight + t.input.length - withWitness + 2

/-- `tx.weight().to_wu()`: weight units (scale factor 4). -/
def weightOf (t : Transaction) : Nat := txScaledSize 4 t

/-- `tx.size()`: plain serialized byte size (scale factor 1). -/
def txByteSize (t : Transaction) : Nat := txScaledSize 1 t

/-- The virtual-size computation the source performs inline at both
sites: `((weight + 3) / 4)`. -/
def txVsize (t : Transaction) : Nat := (weightOf t + 3) / 4

/-- The fee computation of `build_unsigned`:
`(tx_vsize as f32 * self.config.fee_rate).ceil() as u64`, i.e. the
ceiling of `vsize * rate`, saturating at zero below.  Computed on the
rate's reduced numerator and denominator (`vsize * rate` is the rational
`(vsize * rate.num) / rate.den`); the equivalence with `Int.ceil` is
proved as part of claim C6. -/
def feeOf (vsize : Nat) (rate : ℚ) : Nat :=
  (((vsize : Int) * rate.num).toNat + rate.den - 1) / rate.den

/-- Sum of the amounts of a list of spendable outputs. -/
def sumAmounts (l : List Utxo) : Nat := (l.map (·.amount)).sum

/-- Sum of the amounts of a list of output targets. -/
def outputsSum (l : List OutputTarget) : Nat := (l.map (·.amount)).sum

/-- Sum of the non-change output targets, as computed in `build_unsigned`
and `select_utxos_branch_and_bound` (`filter !is_change`). -/
def totalNonChange (l : List OutputTarget) : Nat :=
  ((l.filter (fun o => !o.is_change)).map (·.amount)).sum

/-- Sum of the values carried by a transaction's outputs. -/
def txOutSum (t : Transaction) : Nat := (t.output.map (·.value)).sum

/-- Stable ascending sort by amount (`utxos.sort_by_key(|u| u.amount)`). -/
def sortByAmountAsc (l : List Utxo) : List Utxo :=
  List.insertionSort (fun a b => a.amount ≤ b.amount) l

/-- Stable descending sort by amount
(`utxos.sort_by_key(|u| std::cmp::Reverse(u.amount))`). -/
def sortByAmountDesc (l : List Utxo) : List Utxo :=
  List.insertionSort (fun a b => b.amount ≤ a.amount) l

/-- The accumulation loop of `select_utxos_greedy`: push candidates until
the running total reaches `min_amount` (checked before each push). -/
def greedyAccum (min_amount : Nat) : List Utxo → Nat → List Utxo
  | [], _ => []
  | u :: us, total =>
    if min_amount ≤ total then []
    else u :: greedyAccum min_amount us (total + u.amount)

/-- `TransactionBuilder::select_utxos_greedy`.  The funding threshold uses
the fixed size heuristic (base 10 bytes, 34 bytes per output; the 150-byte
per-input constant is declared but unused in the source) times the
truncated fee rate.  The derived `SigningInput` records are recomputed by
`signing_inputs_for` below rather than stored (spec section 9). -/
def select_utxos_greedy (st : TransactionBuilder) (sorted_utxos : List Utxo) :
    Except Error (List Utxo) :=
  let total_output := outputsSum st.outputs
  let base_tx_size := 10
  let output_size := 34
  let min_amount :=
    total_output +
      (base_tx_size + output_size * st.outputs.length) *
        ratTruncNat st.config.fee_rate
  let selected := greedyAccum min_amount sorted_utxos 0
  if sumAmounts selected < min_amount then .error .insufficientFunds
  else .ok selected

/-- `TransactionBuilder::select_utxos_smallest_first`. -/
def select_utxos_smallest_first (st : TransactionBuilder) :
    Except Error (List Utxo) :=
  select_utxos_greedy st (sortByAmountAsc st.utxos)

/-- `TransactionBuilder::select_utxos_largest_first`. -/
def select_utxos_largest_first (st : TransactionBuilder) :
    Except Error (List Utxo) :=
  select_utxos_greedy st (sortByAmountDesc st.utxos)

/-- `TransactionBuilder::select_utxos_random`; the thread-local shuffle is
a parameter `rng` giving the shuffled arrangement. -/
def select_utxos_random (st : TransactionBuilder)
    (rng : List Utxo → List Utxo) : Except Error (List Utxo) :=
  select_utxos_greedy st (rng st.utxos)

/-- Inner loop of `find_exact_match`: starting from partial sum `s` and
partial selection `sel`, extend greedily with any candidate that keeps the
sum at or below `target`, returning as soon as the sum hits `target`. -/
def exactMatchScan (target : Nat) :
    List Utxo → Nat → List Utxo → Option (List Utxo)
  | [], _, _ => none
  | u :: rest, s, sel =>
    if s + u.amount ≤ target then
      if s + u.amount = target then some (sel ++ [u])
      else exactMatchScan target rest (s + u.amount) (sel ++ [u])
    else exactMatchScan target rest s sel

/-- Outer loop of `find_exact_match`: try each starting index in order,
returning the first exact match found. -/
def exactMatchFrom (target : Nat) : List Utxo → Option (List Utxo)
  | [] => none
  | u :: rest =>
    match exactMatchScan target (u :: rest) 0 [] with
    | some sel => some sel
    | none => exactMatchFrom target rest

/-- `TransactionBuilder::find_exact_match`. -/
def find_exact_match (utxos : List Utxo) (target : Nat) :
    Option (List Utxo) :=
  exactMatchFrom target utxos

/-- `TransactionBuilder::select_utxos_branch_and_bound`: look for an exact
match of the non-change target among the descending-sorted candidates;
otherwise fall back to largest-first greedy selection. -/
def select_utxos_branch_and_bound (st : TransactionBuilder) :
    Except Error (List Utxo) :=
  let target := totalNonChange st.outputs
  let utxos := sortByAmountDesc st.utxos
  match find_exact_match utxos target with
  | some selection => .ok selection
  | none => select_utxos_largest_first st

/-- `TransactionBuilder::select_utxos`: dispatch on the configured
strategy. -/
def select_utxos (st : TransactionBuilder) (rng : List Utxo → List Utxo) :
    Except Error (List Utxo) :=
  match st.config.coin_selection with
  | .smallestFirst => select_utxos_smallest_first st
  | .largestFirst => select_utxos_largest_first st
  | .random => select_utxos_random st rng
  | .branchAndBound => select_utxos_branch_and_bound st

/-- The `SigningInput` records derived one-to-one from a selection
(`SigningInput::new` per selected UTXO, in selection order). -/
def signing_inputs_for (sel : List Utxo) : List SigningInput :=
  sel.map (fun u => SigningInput.new u.txid u.vout u.amount u.script_pubkey)

/-- `TransactionBuilder::create_unsigned_tx`: empty script-sigs and
witnesses, sequence from the RBF configuration, outputs resolved through
the target addresses; the source wraps the result in `Ok` but never
fails. -/
def create_unsigned_tx (st : TransactionBuilder) (utxos : List Utxo)
    (outs : Option (List OutputTarget)) : Transaction :=
  let outputs := outs.getD st.outputs
  let inputs : List TxIn := utxos.map (fun u =>
    { previous_output := (u.txid, u.vout)
      script_sig := []
      sequence := if st.config.rbf then st.config.rbf_sequence else 4294967295
      witness := [] })
  let txouts : List TxOut := outputs.map (fun o =>
    { value := o.amount, script_pubkey := o.address.script_pubkey })
  { version := st.version, lock_time := 0, input := inputs, output := txouts }

/-- The tail of `build_unsigned`: apply the configured lock time (when
set) and the builder's version to the final transaction. -/
def applyOverrides (st : TransactionBuilder) (tx : Transaction) :
    Transaction :=
  let tx1 := match st.lock_time with
    | some lt => { tx with lock_time := lt }
    | none => tx
  { tx1 with version := st.version }

/-- `TransactionBuilder::build_unsigned`. -/
def build_unsigned (st : TransactionBuilder)
    (rng : List Utxo → List Utxo) : Except Error Transaction :=
  if st.outputs.isEmpty then .error (.custom (r"No outputs specified"))
  else
    match select_utxos st rng with
    | .error e => .error e
    | .ok selected =>
      let total_input := sumAmounts selected
      let total_output := totalNonChange st.outputs
      let tx := create_unsigned_tx st selected none
      let fee := feeOf (txVsize tx) st.config.fee_rate
      if total_input < total_output + fee then .error .insufficientFunds
      else
        let change_amount := total_input - total_output - fee
        if st.config.min_change ≤ change_amount then
          match st.change_address with
          | none => .error (.custom (r"Change address not specified"))
          | some ca =>
            let outputs :=
              st.outputs ++ [OutputTarget.new_change ca change_amount]
            .ok (applyOverrides st (create_unsigned_tx st selected (some outputs)))
        else .ok (applyOverrides st tx)

/-- The fee the builder computes for the changeless draft of a selection:
`feeOf` of the draft's virtual size at the configured rate. -/
def draftFee (st : TransactionBuilder) (sel : List Utxo) : Nat :=
  feeOf (txVsize (create_unsigned_tx st sel none)) st.config.fee_rate

/-- The change the builder computes for a selection:
`total_input - total_output - fee` on the changeless draft. -/
def draftChange (st : TransactionBuilder) (sel : List Utxo) : Nat :=
  sumAmounts sel - totalNonChange st.outputs - draftFee st sel

/-- `TransactionBuilder::calculate_fee`: total signing-input amount minus
total output amount.  The source subtracts `Amount`s (and would abort on
underflow); the difference is taken in `ℤ`, agreeing with the source
whenever it is non-negative. -/
def calculate_fee (inputs : List SigningInput) (t : Transaction) : Int :=
  (((inputs.map (·.amount)).sum : Nat) : Int) - ((txOutSum t : Nat) : Int)

/-- Model of `types.rs` `SignedTransaction` (the result metadata).  The
transaction id is an external hash and is omitted; `fee_rate` is the
exact rational the source's f64 computation approximates. -/
structure SignedTransaction where
  tx : Transaction
  size : Nat
  vsize : Nat
  weight : Nat
  fee : Int
  fee_rate : ℚ
  is_complete : Bool
deriving DecidableEq, Repr

/-- `SignedTransaction::new`: derive size, weight, vsize and fee rate
from the transaction. -/
def SignedTransaction.new (t : Transaction) (fee : Int)
    (is_complete : Bool) : SignedTransaction :=
  let weight := weightOf t
  let vsize := (weight + 3) / 4
  { tx := t
    size := txByteSize t
    vsize := vsize
    weight := weight
    fee := fee
    fee_rate := (fee : ℚ) / (vsize : ℚ)
    is_complete := is_complete }

/-- The signing loop of `build_signed`: for each input paired with its
`SigningInput`, obtain the signature hash from the delegated oracle
`sigh` (indexed by input position), call the signing capability, and
replace the witness with the returned elements plus the witness script. -/
def signAll (sigh : Nat → Script → Nat → Script)
    (signer : Script → Nat → Script → Except Error (List Script × Script))
    (idx : Nat) : List (TxIn × SigningInput) → Except Error (List TxIn)
  | [] => .ok []
  | (txin, sin) :: rest =>
    let sighash := sigh idx sin.script_pubkey sin.amount
    match signer sin.script_pubkey sin.amount sighash with
    | .error e => .error e
    | .ok (signatures, witness_script) =>
      match signAll sigh signer (idx + 1) rest with
      | .error e => .error e
      | .ok rest2 =>
        .ok ({ txin with witness := signatures ++ [witness_script] } :: rest2)

/-- `TransactionBuilder::build_signed`: rebuild the unsigned transaction,
recover the signing inputs from the (deterministic) selection, sign every
input, and assemble the result metadata with the realized fee
`calculate_fee` of the unsigned transaction. -/
def build_signed (st : TransactionBuilder) (rng : List Utxo → List Utxo)
    (sigh : Nat → Script → Nat → Script)
    (signer : Script → Nat → Script → Except Error (List Script × Script)) :
    Except Error SignedTransaction :=
  match build_unsigned st rng with
  | .error e => .error e
  | .ok unsigned =>
    match select_utxos st rng with
    | .error e => .error e
    | .ok sel =>
      match signAll sigh signer 0 (unsigned.input.zip (signing_inputs_for sel)) with
      | .error e => .error e
      | .ok newInputs =>
        .ok (SignedTransaction.new { unsigned with input := newInputs }
              (calculate_fee (signing_inputs_for sel) unsigned) true)

/-- Identity arrangement, used where a thread-local shuffle is
irrelevant. -/
def rngId : List Utxo → List Utxo := id

/-! Concrete states used to instantiate the claims: a standard 25-byte
pay-to-pubkey-hash style locking script, an address resolving to it, and
small builder states exercising the individual code paths. -/

/-- A 25-byte locking script (the length of a standard P2PKH script). -/
def spk25 : Script := List.replicate 25 0

/-- A concrete address resolving to `spk25`. -/
def addrA : Addr := ⟨spk25⟩

/-- A concrete spendable output with the given id and amount. -/
def mkUtxo (txid amt : Nat) : Utxo := ⟨txid, 0, amt, spk25, none, none, none, true⟩

/-- A configuration with the given strategy and minimum change, the other
fields as in the source's `Default` impl. -/
def cfgWith (strat : CoinSelectionStrategy) (minChange : Nat) : TxBuilderConfig :=
  ⟨.bitcoin, 1, 546, false, 4294967293, minChange, strat, true, true⟩

/-- Builder state whose second output target is pre-flagged as change:
one 60000-unit spendable output, targets of 1000 (payment) and 50000
(flagged `is_change`), change address set. -/
def stBadC1 : TransactionBuilder :=
  ⟨cfgWith .largestFirst 1000, [mkUtxo 1 60000],
   [⟨addrA, 1000, false⟩, ⟨addrA, 50000, true⟩], [], some addrA, none, 2⟩

/-- Builder state taking the change branch: one 100000-unit spendable
output and a 10000-unit payment target. -/
def stC2 : TransactionBuilder :=
  ⟨cfgWith .largestFirst 1000, [mkUtxo 1 100000],
   [⟨addrA, 10000, false⟩], [], some addrA, none, 2⟩

/-- Spendable outputs 9000/5000/4000/2000 with funding target 15000: the
subset 9000+4000+2000 matches the target exactly, but the source's scan
commits to 9000+5000 first and finds nothing. -/
def stC3 : TransactionBuilder :=
  ⟨cfgWith .branchAndBound 1000,
   [mkUtxo 1 9000, mkUtxo 2 5000, mkUtxo 3 4000, mkUtxo 4 2000],
   [⟨addrA, 15000, false⟩], [], some addrA, none, 2⟩

/-- The spec's exact-match scenario: spendable outputs 50000/30000/20000,
funding target 80000. -/
def stC3w : TransactionBuilder :=
  ⟨cfgWith .branchAndBound 1000,
   [mkUtxo 1 50000, mkUtxo 2 30000, mkUtxo 3 20000],
   [⟨addrA, 80000, false⟩], [], some addrA, none, 2⟩

/-- Builder state in the no-change branch whose second output target is
pre-flagged as change (amount 500), with `min_change` 10000. -/
def stBadC4 : TransactionBuilder :=
  ⟨cfgWith .largestFirst 10000, [mkUtxo 1 1600],
   [⟨addrA, 1000, false⟩, ⟨addrA, 500, true⟩], [], some addrA, none, 2⟩

/-- A well-formed builder state hitting the no-change branch: one
1600-unit spendable output, one 1000-unit payment, `min_change` 10000. -/
def stW4 : TransactionBuilder :=
  ⟨cfgWith .largestFirst 10000, [mkUtxo 1 1600],
   [⟨addrA, 1000, false⟩], [], some addrA, none, 2⟩

/-- Spendable outputs 6000/4000 with funding target 5000: no subset sums
to the target. -/
def stC5w : TransactionBuilder :=
  ⟨cfgWith .branchAndBound 1000, [mkUtxo 1 6000, mkUtxo 2 4000],
   [⟨addrA, 5000, false⟩], [], some addrA, none, 2⟩

/-- The spec's insufficient-funds scenario: default configuration, one
100000-unit spendable output, one 200000-unit payment target. -/
def stC7 : TransactionBuilder :=
  { TransactionBuilder.new .bitcoin with
      utxos := [mkUtxo 1 100000], outputs := [OutputTarget.new addrA 200000] }

/-- Builder state with both shuffle flags enabled, two spendable outputs
that are both selected, and lock-time/version overrides set. -/
def stC8 : TransactionBuilder :=
  ⟨⟨.bitcoin, 1, 546, false, 4294967293, 1000, .largestFirst, true, true⟩,
   [mkUtxo 1 3000, mkUtxo 2 2500], [⟨addrA, 5000, false⟩], [],
   some addrA, some 777, 3⟩

/-- A small builder state on which `build_unsigned` succeeds through the
change branch. -/
def stGoodC1 : TransactionBuilder :=
  ⟨cfgWith .largestFirst 1000, [mkUtxo 1 5000], [⟨addrA, 1000, false⟩],
   [], some addrA, none, 2⟩

/-- The transaction `build_unsigned` produces on `stGoodC1`. -/
def txGoodC1 : Transaction :=
  ((build_unsigned stGoodC1 rngId).toOption).getD ⟨2, 0, [], []⟩

/-- Builder state for the idempotence claim: shuffle flags disabled,
non-random strategy. -/
def stW9 : TransactionBuilder :=
  ⟨⟨.bitcoin, 1, 546, false, 4294967293, 1000, .largestFirst, false, false⟩,
   [mkUtxo 1 2000, mkUtxo 2 7000], [⟨addrA, 1000, false⟩], [],
   some addrA, none, 2⟩

/-- A trivial signature-hash oracle for witnesses. -/
def sigh0 : Nat → Script → Nat → Script := fun _ _ _ => []

/-- A trivial signing capability for witnesses. -/
def signer0 : Script → Nat → Script → Except Error (List Script × Script) :=
  fun _ _ _ => .ok ([], [])

/-- A concrete transaction (one input, one 1000-unit output) for the fee
formula claim. -/
def txW6 : Transaction :=
  ⟨2, 0, [⟨(1, 0), [], 4294967295, []⟩], [⟨1000, spk25⟩]⟩

/-- A concrete stored signing input carrying a sequence override, for the
claim that the override is never consulted. -/
def sinW10 : SigningInput := ⟨9, 9, 9, [], none, none, some 123⟩

/-! Supporting lemmas. -/

theorem sumAmounts_append (a b : List Utxo) :
    sumAmounts (a ++ b) = sumAmounts a + sumAmounts b := by
  simp [sumAmounts]

theorem outputsSum_append (a b : List OutputTarget) :
    outputsSum (a ++ b) = outputsSum a + outputsSum b := by
  simp [outputsSum]

theorem txOutSum_create (st : TransactionBuilder) (sel : List Utxo)
    (outs : Option (List OutputTarget)) :
    txOutSum (create_unsigned_tx st sel outs) = outputsSum (outs.getD st.outputs) := by
  simp only [txOutSum, create_unsigned_tx, outputsSum, List.map_map]
  rfl

theorem applyOverrides_output (st : TransactionBuilder) (tx : Transaction) :
    (applyOverrides st tx).output = tx.output := by
  unfold applyOverrides
  cases st.lock_time <;> rfl

theorem applyOverrides_input (st : TransactionBuilder) (tx : Transaction) :
    (applyOverrides st tx).input = tx.input := by
  unfold applyOverrides
  cases st.lock_time <;> rfl

theorem txOutSum_applyOverrides (st : TransactionBuilder) (tx : Transaction) :
    txOutSum (applyOverrides st tx) = txOutSum tx := by
  simp [txOutSum, applyOverrides_output]

theorem totalNonChange_of_all_payment (outs : List OutputTarget)
    (h : ∀ o ∈ outs, o.is_change = false) :
    totalNonChange outs = outputsSum outs := by
  unfold totalNonChange outputsSum
  rw [List.filter_eq_self.mpr]
  intro o ho
  simp [h o ho]

theorem isEmpty_false_of_ne {α : Type} {l : List α} (h : l ≠ []) :
    l.isEmpty = false := by
  cases l
  · exact absurd rfl h
  · rfl

/-- Unfolded form of `build_unsigned`, clean of intermediate bindings. -/
theorem build_unsigned_eq (st : TransactionBuilder) (rng : List Utxo → List Utxo) :
    build_unsigned st rng =
      if st.outputs.isEmpty then .error (.custom (r"No outputs specified"))
      else
        match select_utxos st rng with
        | .error e => .error e
        | .ok selected =>
          if sumAmounts selected < totalNonChange st.outputs + draftFee st selected
          then .error .insufficientFunds
          else if st.config.min_change ≤ draftChange st selected then
            match st.change_address with
            | none => .error (.custom (r"Change address not specified"))
            | some ca =>
              .ok (applyOverrides st (create_unsigned_tx st selected
                (some (st.outputs ++
                  [OutputTarget.new_change ca (draftChange st selected)]))))
          else .ok (applyOverrides st (create_unsigned_tx st selected none)) := rfl

theorem build_unsigned_select_err (st : TransactionBuilder)
    (rng : List Utxo → List Utxo) (e : Error)
    (hne : st.outputs.isEmpty = false)
    (hsel : select_utxos st rng = .error e) :
    build_unsigned st rng = .error e := by
  simp only [build_unsigned_eq, hne, Bool.false_eq_true, if_false, hsel]

theorem build_unsigned_shortfall (st : TransactionBuilder)
    (rng : List Utxo → List Utxo) (sel : List Utxo)
    (hne : st.outputs.isEmpty = false)
    (hsel : select_utxos st rng = .ok sel)
    (hfund : sumAmounts sel < totalNonChange st.outputs + draftFee st sel) :
    build_unsigned st rng = .error .insufficientFunds := by
  simp only [build_unsigned_eq, hne, Bool.false_eq_true, if_false, hsel]
  rw [if_pos hfund]

theorem build_unsigned_change_eq (st : TransactionBuilder)
    (rng : List Utxo → List Utxo) (sel : List Utxo) (ca : Addr)
    (hne : st.outputs.isEmpty = false)
    (hsel : select_utxos st rng = .ok sel)
    (hfund : totalNonChange st.outputs + draftFee st sel ≤ sumAmounts sel)
    (hmin : st.config.min_change ≤ draftChange st sel)
    (hca : st.change_address = some ca) :
    build_unsigned st rng = .ok (applyOverrides st (create_unsigned_tx st sel
      (some (st.outputs ++ [OutputTarget.new_change ca (draftChange st sel)])))) := by
  simp only [build_unsigned_eq, hne, Bool.false_eq_true, if_false, hsel, hca]
  rw [if_neg (Nat.not_lt.mpr hfund), if_pos hmin]

theorem build_unsigned_nochange_eq (st : TransactionBuilder)
    (rng : List Utxo → List Utxo) (sel : List Utxo)
    (hne : st.outputs.isEmpty = false)
    (hsel : select_utxos st rng = .ok sel)
    (hfund : totalNonChange st.outputs + draftFee st sel ≤ sumAmounts sel)
    (hmin : draftChange st sel < st.config.min_change) :
    build_unsigned st rng =
      .ok (applyOverrides st (create_unsigned_tx st sel none)) := by
  simp only [build_unsigned_eq, hne, Bool.false_eq_true, if_false, hsel]
  rw [if_neg (Nat.not_lt.mpr hfund), if_neg (Nat.not_le.mpr hmin)]

theorem build_unsigned_ok_inv (st : TransactionBuilder)
    (rng : List Utxo → List Utxo) (tx : Transaction)
    (h : build_unsigned st rng = .ok tx) :
    ∃ sel, select_utxos st rng = .ok sel ∧
      totalNonChange st.outputs + draftFee st sel ≤ sumAmounts sel ∧
      ((st.config.min_change ≤ draftChange st sel ∧
          ∃ ca, st.change_address = some ca ∧
            tx = applyOverrides st (create_unsigned_tx st sel
              (some (st.outputs ++
                [OutputTarget.new_change ca (draftChange st sel)])))) ∨
        (draftChange st sel < st.config.min_change ∧
          tx = applyOverrides st (create_unsigned_tx st sel none))) := by
  rw [build_unsigned_eq] at h
  split at h
  · exact Except.noConfusion h
  · split at h
    next e heq => exact Except.noConfusion h
    next selected heq =>
      split at h
      next hfund => exact Except.noConfusion h
      next hfund =>
        split at h
        next hmin =>
          split at h
          next hca => exact Except.noConfusion h
          next ca hca =>
            exact ⟨selected, heq, Nat.not_lt.mp hfund,
              Or.inl ⟨hmin, ca, hca, (Except.ok.inj h).symm⟩⟩
        next hmin =>
          exact ⟨selected, heq, Nat.not_lt.mp hfund,
            Or.inr ⟨Nat.not_le.mp hmin, (Except.ok.inj h).symm⟩⟩

theorem build_unsigned_ok_input (st : TransactionBuilder)
    (rng : List Utxo → List Utxo) (tx : Transaction)
    (h : build_unsigned st rng = .ok tx) :
    ∃ sel, select_utxos st rng = .ok sel ∧
      tx.input = sel.map (fun u =>
        { previous_output := (u.txid, u.vout)
          script_sig := []
          sequence := if st.config.rbf then st.config.rbf_sequence else 4294967295
          witness := [] }) := by
  obtain ⟨sel, hsel, _, hcase⟩ := build_unsigned_ok_inv st rng tx h
  refine ⟨sel, hsel, ?_⟩
  rcases hcase with ⟨_, ca, _, rfl⟩ | ⟨_, rfl⟩ <;>
    rw [applyOverrides_input] <;> rfl

theorem build_unsigned_ok_sum (st : TransactionBuilder)
    (rng : List Utxo → List Utxo) (tx : Transaction)
    (hnc : ∀ o ∈ st.outputs, o.is_change = false)
    (h : build_unsigned st rng = .ok tx) :
    ∃ sel fee, select_utxos st rng = .ok sel ∧
      sumAmounts sel = txOutSum tx + fee := by
  obtain ⟨sel, hsel, hfund, hcase⟩ := build_unsigned_ok_inv st rng tx h
  have htnc := totalNonChange_of_all_payment st.outputs hnc
  rcases hcase with ⟨hmin, ca, hca, rfl⟩ | ⟨hmin, rfl⟩
  · refine ⟨sel, draftFee st sel, hsel, ?_⟩
    rw [txOutSum_applyOverrides, txOutSum_create]
    simp only [Option.getD_some]
    rw [outputsSum_append]
    have hsingle :
        outputsSum [OutputTarget.new_change ca (draftChange st sel)] =
          draftChange st sel := by
      simp [outputsSum, OutputTarget.new_change]
    rw [hsingle, ← htnc]
    unfold draftChange
    omega
  · refine ⟨sel, sumAmounts sel - totalNonChange st.outputs, hsel, ?_⟩
    rw [txOutSum_applyOverrides, txOutSum_create]
    simp only [Option.getD_none]
    rw [← htnc]
    omega

theorem exactMatchScan_sum (target : Nat) :
    ∀ (l : List Utxo) (s : Nat) (acc r : List Utxo),
      exactMatchScan target l s acc = some r → sumAmounts acc = s →
      sumAmounts r = target := by
  intro l
  induction l with
  | nil =>
    intro s acc r h _
    simp [exactMatchScan] at h
  | cons u us ih =>
    intro s acc r h hacc
    unfold exactMatchScan at h
    by_cases h1 : s + u.amount ≤ target
    · rw [if_pos h1] at h
      by_cases h2 : s + u.amount = target
      · rw [if_pos h2] at h
        injection h with h3
        subst h3
        rw [sumAmounts_append, hacc]
        have : sumAmounts [u] = u.amount := by simp [sumAmounts]
        rw [this]
        exact h2
      · rw [if_neg h2] at h
        refine ih _ _ _ h ?_
        rw [sumAmounts_append, hacc]
        simp [sumAmounts]
    · rw [if_neg h1] at h
      exact ih _ _ _ h hacc

theorem exactMatchScan_sublist (target : Nat) :
    ∀ (l : List Utxo) (s : Nat) (acc r : List Utxo),
      exactMatchScan target l s acc = some r →
      ∃ r2, r = acc ++ r2 ∧ r2.Sublist l := by
  intro l
  induction l with
  | nil =>
    intro s acc r h
    simp [exactMatchScan] at h
  | cons u us ih =>
    intro s acc r h
    unfold exactMatchScan at h
    by_cases h1 : s + u.amount ≤ target
    · rw [if_pos h1] at h
      by_cases h2 : s + u.amount = target
      · rw [if_pos h2] at h
        injection h with h3
        exact ⟨[u], h3.symm, List.Sublist.cons₂ u (List.nil_sublist us)⟩
      · rw [if_neg h2] at h
        obtain ⟨r2, hr2, hsub⟩ := ih _ _ _ h
        refine ⟨u :: r2, ?_, List.Sublist.cons₂ u hsub⟩
        rw [hr2, List.append_assoc]
        rfl
    · rw [if_neg h1] at h
      obtain ⟨r2, hr2, hsub⟩ := ih _ _ _ h
      exact ⟨r2, hr2, List.Sublist.cons u hsub⟩

theorem exactMatchFrom_sum (target : Nat) :
    ∀ (utxos r : List Utxo), exactMatchFrom target utxos = some r →
      sumAmounts r = target := by
  intro utxos
  induction utxos with
  | nil =>
    intro r h
    simp [exactMatchFrom] at h
  | cons u us ih =>
    intro r h
    unfold exactMatchFrom at h
    cases hscan : exactMatchScan target (u :: us) 0 [] with
    | some sel =>
      rw [hscan] at h
      injection h with h2
      subst h2
      exact exactMatchScan_sum target _ 0 [] _ hscan (by simp [sumAmounts])
    | none =>
      rw [hscan] at h
      exact ih _ h

theorem exactMatchFrom_sublist (target : Nat) :
    ∀ (utxos r : List Utxo), exactMatchFrom target utxos = some r →
      r.Sublist utxos := by
  intro utxos
  induction utxos with
  | nil =>
    intro r h
    simp [exactMatchFrom] at h
  | cons u us ih =>
    intro r h
    unfold exactMatchFrom at h
    cases hscan : exactMatchScan target (u :: us) 0 [] with
    | some sel =>
      rw [hscan] at h
      injection h with h2
      subst h2
      obtain ⟨r2, hr2, hsub⟩ := exactMatchScan_sublist target _ 0 [] _ hscan
      rw [hr2]
      exact hsub
    | none =>
      rw [hscan] at h
      exact List.Sublist.cons u (ih _ h)

theorem find_exact_match_sum (utxos : List Utxo) (target : Nat)
    (r : List Utxo) (h : find_exact_match utxos target = some r) :
    sumAmounts r = target :=
  exactMatchFrom_sum target utxos r h

theorem find_exact_match_sublist (utxos : List Utxo) (target : Nat)
    (r : List Utxo) (h : find_exact_match utxos target = some r) :
    r.Sublist utxos :=
  exactMatchFrom_sublist target utxos r h

/-- Ceiling division on `Nat`: `(n + d - 1) / d` computes the ceiling of
the exact rational `n / d` for positive `d`. -/
theorem ceilDiv_nat (n d : Nat) (hd : 0 < d) :
    (((n + d - 1) / d : Nat) : ℤ) = Int.ceil ((n : ℚ) / (d : ℚ)) := by
  have hdm := Nat.div_add_mod (n + d - 1) d
  have hmod : (n + d - 1) % d < d := Nat.mod_lt _ hd
  have h1 : n ≤ d * ((n + d - 1) / d) := by omega
  have h2 : d * ((n + d - 1) / d) ≤ n + d - 1 := by omega
  rw [eq_comm, Int.ceil_eq_iff]
  have hdq : (0 : ℚ) < (d : ℚ) := by
    exact_mod_cast hd
  constructor
  · rw [lt_div_iff₀ hdq]
    have hz : (d : ℤ) * (((n + d - 1) / d : Nat) : ℤ) ≤ (n : ℤ) + (d : ℤ) - 1 := by
      omega
    have hq : (((d : ℤ) * (((n + d - 1) / d : Nat) : ℤ) : ℤ) : ℚ) ≤
        ((((n : ℤ) + (d : ℤ) - 1 : ℤ)) : ℚ) := Int.cast_le.mpr hz
    push_cast at hq ⊢
    linarith
  · rw [div_le_iff₀ hdq]
    have hz : (n : ℤ) ≤ (d : ℤ) * (((n + d - 1) / d : Nat) : ℤ) := by
      omega
    have hq : (((n : ℤ)) : ℚ) ≤
        (((d : ℤ) * (((n + d - 1) / d : Nat) : ℤ) : ℤ) : ℚ) := Int.cast_le.mpr hz
    push_cast at hq ⊢
    linarith

theorem feeOf_eq_ceil (v : Nat) (rate : ℚ) (hr : 0 ≤ rate) :
    ((feeOf v rate : Nat) : ℤ) = Int.ceil ((v : ℚ) * rate) := by
  have hd : 0 < rate.den := rate.pos
  have hnn : 0 ≤ (v : Int) * rate.num :=
    mul_nonneg (Int.natCast_nonneg v) (Rat.num_nonneg.mpr hr)
  have hmain := ceilDiv_nat ((v : Int) * rate.num).toNat rate.den hd
  have hcast : ((((v : Int) * rate.num).toNat : Nat) : ℚ) =
      (((v : Int) * rate.num : Int) : ℚ) := by
    exact_mod_cast congrArg (fun z : ℤ => (z : ℚ)) (Int.toNat_of_nonneg hnn)
  rw [hcast] at hmain
  have harg : (((v : Int) * rate.num : Int) : ℚ) / (rate.den : ℚ) =
      (v : ℚ) * rate := by
    conv_rhs => rw [← Rat.num_div_den rate]
    push_cast
    ring
  rw [harg] at hmain
  unfold feeOf
  exact hmain

theorem vsize_eq_ceil (t : Transaction) :
    ((txVsize t : Nat) : ℤ) = Int.ceil ((weightOf t : ℚ) / 4) := by
  have hmain := ceilDiv_nat (weightOf t) 4 (by norm_num)
  have h4 : weightOf t + 4 - 1 = weightOf t + 3 := by omega
  rw [h4] at hmain
  rw [txVsize, hmain]
  norm_num

/-! Claim theorems. -/

/-- C1, counterexample: the claimed invariant fails as stated.  On the
builder state `stBadC1`, whose second output target is pre-flagged as
change (a state reachable through `add_outputs`), `build_unsigned`
succeeds with outputs totalling 109881 while the selected inputs total
only 60000, so no non-negative fee satisfies
`sum(inputs) = sum(outputs) + fee`. -/
theorem C1_counterexample :
    Except.map txOutSum (build_unsigned stBadC1 rngId) = .ok 109881 ∧
    Except.map sumAmounts (select_utxos stBadC1 rngId) = .ok 60000 ∧
    (60000 : Nat) < 109881 :=
  ⟨by decide, by decide, by decide⟩

/-- C1, amended: on every builder state whose output targets are not
pre-flagged as change (the states produced by `add_output`), every
successful `build_unsigned` and `build_signed` satisfies
`sum(selected input amounts) = sum(final output amounts) + fee` with a
non-negative fee (`fee : Nat`; output amounts are non-negative by the
`Nat` value model), and `build_signed` reports exactly that realized
fee. -/
theorem C1_value_conservation (st : TransactionBuilder)
    (rng : List Utxo → List Utxo) (sigh : Nat → Script → Nat → Script)
    (signer : Script → Nat → Script → Except Error (List Script × Script))
    (hnc : ∀ o ∈ st.outputs, o.is_change = false) :
    (∀ tx, build_unsigned st rng = .ok tx →
      ∃ sel fee, select_utxos st rng = .ok sel ∧
        sumAmounts sel = txOutSum tx + fee) ∧
    (∀ stx, build_signed st rng sigh signer = .ok stx →
      ∃ sel fee, select_utxos st rng = .ok sel ∧
        sumAmounts sel = txOutSum stx.tx + fee ∧ stx.fee = (fee : Int)) := by
  constructor
  · intro tx h
    exact build_unsigned_ok_sum st rng tx hnc h
  · intro stx h
    unfold build_signed at h
    split at h
    next => exact Except.noConfusion h
    next unsigned hbu =>
      split at h
      next e hsel2 => exact Except.noConfusion h
      next sel hsel2 =>
        split at h
        next e hsign => exact Except.noConfusion h
        next newIns hsign =>
          obtain ⟨sel2, fee, hsel3, hsum⟩ :=
            build_unsigned_ok_sum st rng unsigned hnc hbu
          have hseleq : sel2 = sel := by
            rw [hsel3] at hsel2
            exact Except.ok.inj hsel2
          subst hseleq
          have hstx := Except.ok.inj h
          refine ⟨sel2, fee, hsel3, ?_, ?_⟩
          · rw [← hstx]
            have hout : txOutSum (SignedTransaction.new
                { unsigned with input := newIns }
                (calculate_fee (signing_inputs_for sel2) unsigned) true).tx
                = txOutSum unsigned := by
              simp [SignedTransaction.new, txOutSum]
            rw [hout]
            exact hsum
          · rw [← hstx]
            have hs : ((signing_inputs_for sel2).map (·.amount)).sum =
                sumAmounts sel2 := by
              simp only [signing_inputs_for, List.map_map, sumAmounts]
              rfl
            show calculate_fee (signing_inputs_for sel2) unsigned = (fee : Int)
            unfold calculate_fee
            omega

/-- Witness for C1: the amended invariant instantiated on the concrete
state `stGoodC1`. -/
theorem C1_value_conservation_witness :
    ∃ sel fee, select_utxos stGoodC1 rngId = .ok sel ∧
      sumAmounts sel = txOutSum txGoodC1 + fee :=
  (C1_value_conservation stGoodC1 rngId sigh0 signer0 (by decide)).1
    txGoodC1 (by decide)

/-- C2, counterexample: on `stC2` the change branch is taken, but the fee
is not recomputed on the draft that includes the change output: the
realized fee of the returned transaction is 85 (the changeless draft's
fee), while the fee formula applied to the final two-output draft gives
119. -/
theorem C2_counterexample :
    Except.map txOutSum (build_unsigned stC2 rngId) = .ok 99915 ∧
    Except.map (fun tx => tx.output.length) (build_unsigned stC2 rngId) = .ok 2 ∧
    Except.map sumAmounts (select_utxos stC2 rngId) = .ok 100000 ∧
    Except.map (fun tx => feeOf (txVsize tx) stC2.config.fee_rate)
      (build_unsigned stC2 rngId) = .ok 119 ∧
    100000 - 99915 = 85 ∧ (85 : Nat) ≠ 119 :=
  ⟨by decide, by decide, by decide, by decide, by decide, by decide⟩

/-- C2, amended: when the computed change reaches `min_change` and a
change address is set, the transaction is rebuilt with a change output
appended whose amount is `total_input - total_output - fee` for the fee
computed on the changeless draft; the weight and fee are not recomputed
on the new draft.  Consequently, for builder states whose output targets
are not pre-flagged as change, the realized fee of the returned
transaction equals the changeless draft's fee, so the extra output's
overhead is not reflected. -/
theorem C2_change_rebuild (st : TransactionBuilder)
    (rng : List Utxo → List Utxo) (sel : List Utxo) (ca : Addr)
    (hne : st.outputs ≠ [])
    (hsel : select_utxos st rng = .ok sel)
    (hfund : totalNonChange st.outputs + draftFee st sel ≤ sumAmounts sel)
    (hmin : st.config.min_change ≤ draftChange st sel)
    (hca : st.change_address = some ca) :
    build_unsigned st rng = .ok (applyOverrides st (create_unsigned_tx st sel
      (some (st.outputs ++ [OutputTarget.new_change ca (draftChange st sel)])))) ∧
    (applyOverrides st (create_unsigned_tx st sel
      (some (st.outputs ++
        [OutputTarget.new_change ca (draftChange st sel)])))).output.length =
      st.outputs.length + 1 ∧
    ((∀ o ∈ st.outputs, o.is_change = false) →
      txOutSum (applyOverrides st (create_unsigned_tx st sel
        (some (st.outputs ++ [OutputTarget.new_change ca (draftChange st sel)])))) +
        draftFee st sel = sumAmounts sel) := by
  refine ⟨build_unsigned_change_eq st rng sel ca (isEmpty_false_of_ne hne)
    hsel hfund hmin hca, ?_, ?_⟩
  · rw [applyOverrides_output]
    simp [create_unsigned_tx]
  · intro hnc
    rw [txOutSum_applyOverrides, txOutSum_create]
    simp only [Option.getD_some]
    rw [outputsSum_append]
    have hsingle :
        outputsSum [OutputTarget.new_change ca (draftChange st sel)] =
          draftChange st sel := by
      simp [outputsSum, OutputTarget.new_change]
    rw [hsingle, ← totalNonChange_of_all_payment st.outputs hnc]
    unfold draftChange
    omega

/-- Witness for C2: the amended statement instantiated on `stC2`. -/
theorem C2_change_rebuild_witness :
    build_unsigned stC2 rngId = .ok (applyOverrides stC2 (create_unsigned_tx stC2
      [mkUtxo 1 100000]
      (some (stC2.outputs ++
        [OutputTarget.new_change addrA (draftChange stC2 [mkUtxo 1 100000])])))) ∧
    (applyOverrides stC2 (create_unsigned_tx stC2 [mkUtxo 1 100000]
      (some (stC2.outputs ++
        [OutputTarget.new_change addrA
          (draftChange stC2 [mkUtxo 1 100000])])))).output.length =
      stC2.outputs.length + 1 ∧
    ((∀ o ∈ stC2.outputs, o.is_change = false) →
      txOutSum (applyOverrides stC2 (create_unsigned_tx stC2 [mkUtxo 1 100000]
        (some (stC2.outputs ++
          [OutputTarget.new_change addrA (draftChange stC2 [mkUtxo 1 100000])])))) +
        draftFee stC2 [mkUtxo 1 100000] = sumAmounts [mkUtxo 1 100000]) :=
  C2_change_rebuild stC2 rngId [mkUtxo 1 100000] addrA (by decide)
    (by decide) (by decide) (by decide) (by decide)

/-- C3, counterexample: on `stC3` the sublist 9000/4000/2000 of the
available outputs sums exactly to the funding target 15000, yet the
`BranchAndBound` selector returns a subset summing to 18000 (its linear
scan commits to 9000+5000 and misses the exact subset, then falls back
to greedy selection). -/
theorem C3_counterexample :
    [mkUtxo 1 9000, mkUtxo 3 4000, mkUtxo 4 2000] ∈ stC3.utxos.sublists ∧
    sumAmounts [mkUtxo 1 9000, mkUtxo 3 4000, mkUtxo 4 2000] =
      totalNonChange stC3.outputs ∧
    Except.map sumAmounts (select_utxos_branch_and_bound stC3) = .ok 18000 ∧
    totalNonChange stC3.outputs = 15000 ∧ (18000 : Nat) ≠ 15000 :=
  ⟨by decide, by decide, by decide, by decide, by decide⟩

/-- C3, amended: whenever the first-exact-match descending scan
(`find_exact_match`) finds a subset, the `BranchAndBound` selector
returns exactly that subset and its sum equals the funding target; the
scan is not complete, so an exact subset may exist without being
found. -/
theorem C3_exact_when_found (st : TransactionBuilder) (sel : List Utxo)
    (h : find_exact_match (sortByAmountDesc st.utxos)
      (totalNonChange st.outputs) = some sel) :
    select_utxos_branch_and_bound st = .ok sel ∧
      sumAmounts sel = totalNonChange st.outputs := by
  constructor
  · simp only [select_utxos_branch_and_bound]
    rw [h]
  · exact find_exact_match_sum _ _ _ h

/-- Witness for C3: the spec's exact-match scenario (50000/30000/20000
with target 80000 selects exactly 50000+30000). -/
theorem C3_exact_when_found_witness :
    select_utxos_branch_and_bound stC3w = .ok [mkUtxo 1 50000, mkUtxo 2 30000] ∧
      sumAmounts [mkUtxo 1 50000, mkUtxo 2 30000] = totalNonChange stC3w.outputs :=
  C3_exact_when_found stC3w [mkUtxo 1 50000, mkUtxo 2 30000] (by decide)

/-- C4, counterexample: on `stBadC4` (second output target pre-flagged as
change) the surplus 481 is below `min_change` 10000 and no change output
is appended, but reconstructing the fee as input total minus output total
gives 100, not the claimed fee plus surplus 119 + 481. -/
theorem C4_counterexample :
    Except.map txOutSum (build_unsigned stBadC4 rngId) = .ok 1500 ∧
    Except.map (fun tx => tx.output.length) (build_unsigned stBadC4 rngId) = .ok 2 ∧
    Except.map sumAmounts (select_utxos stBadC4 rngId) = .ok 1600 ∧
    draftFee stBadC4 [mkUtxo 1 1600] = 119 ∧
    draftChange stBadC4 [mkUtxo 1 1600] = 481 ∧
    1600 - 1500 = 100 ∧ (100 : Nat) ≠ 119 + 481 :=
  ⟨by decide, by decide, by decide, by decide, by decide, by decide, by decide⟩

/-- C4, amended: on every builder state whose output targets are not
pre-flagged as change, whenever the computed surplus is below
`min_change` the returned transaction carries exactly the requested
outputs (no change output appended) and the surplus is fully absorbed
into the realized fee: input total equals output total plus the draft
fee plus the surplus. -/
theorem C4_change_omission (st : TransactionBuilder)
    (rng : List Utxo → List Utxo) (sel : List Utxo)
    (hnc : ∀ o ∈ st.outputs, o.is_change = false)
    (hne : st.outputs ≠ [])
    (hsel : select_utxos st rng = .ok sel)
    (hfund : totalNonChange st.outputs + draftFee st sel ≤ sumAmounts sel)
    (hmin : draftChange st sel < st.config.min_change) :
    build_unsigned st rng = .ok (applyOverrides st (create_unsigned_tx st sel none)) ∧
    (applyOverrides st (create_unsigned_tx st sel none)).output.length =
      st.outputs.length ∧
    sumAmounts sel =
      txOutSum (applyOverrides st (create_unsigned_tx st sel none)) +
        (draftFee st sel + draftChange st sel) := by
  refine ⟨build_unsigned_nochange_eq st rng sel (isEmpty_false_of_ne hne)
    hsel hfund hmin, ?_, ?_⟩
  · rw [applyOverrides_output]
    simp [create_unsigned_tx]
  · rw [txOutSum_applyOverrides, txOutSum_create]
    simp only [Option.getD_none]
    rw [← totalNonChange_of_all_payment st.outputs hnc]
    unfold draftChange
    omega

/-- Witness for C4: the amended statement instantiated on `stW4`. -/
theorem C4_change_omission_witness :
    build_unsigned stW4 rngId =
      .ok (applyOverrides stW4 (create_unsigned_tx stW4 [mkUtxo 1 1600] none)) ∧
    (applyOverrides stW4 (create_unsigned_tx stW4 [mkUtxo 1 1600] none)).output.length =
      stW4.outputs.length ∧
    sumAmounts [mkUtxo 1 1600] =
      txOutSum (applyOverrides stW4 (create_unsigned_tx stW4 [mkUtxo 1 1600] none)) +
        (draftFee stW4 [mkUtxo 1 1600] + draftChange stW4 [mkUtxo 1 1600]) :=
  C4_change_omission stW4 rngId [mkUtxo 1 1600] (by decide) (by decide)
    (by decide) (by decide) (by decide)

/-- C5: if no subset of the available outputs sums exactly to the funding
target, the `BranchAndBound` selector returns exactly what the
`LargestFirst` strategy returns on the same inputs. -/
theorem C5_fallback (st : TransactionBuilder)
    (h : ∀ l ∈ st.utxos.sublists, sumAmounts l ≠ totalNonChange st.outputs) :
    select_utxos_branch_and_bound st = select_utxos_largest_first st := by
  have hnone : find_exact_match (sortByAmountDesc st.utxos)
      (totalNonChange st.outputs) = none := by
    cases hfem : find_exact_match (sortByAmountDesc st.utxos)
        (totalNonChange st.outputs) with
    | none => rfl
    | some r =>
      exfalso
      have hsum := find_exact_match_sum _ _ _ hfem
      have hsub : r.Sublist (sortByAmountDesc st.utxos) :=
        find_exact_match_sublist _ _ _ hfem
      have hperm : (sortByAmountDesc st.utxos).Perm st.utxos :=
        List.perm_insertionSort _ _
      have hsp : r.Subperm st.utxos := hsub.subperm.trans hperm.subperm
      obtain ⟨r2, hp2, hsub2⟩ := hsp
      refine h r2 (List.mem_sublists.mpr hsub2) ?_
      have hmapeq : sumAmounts r2 = sumAmounts r := by
        unfold sumAmounts
        exact (hp2.map (·.amount)).sum_eq
      rw [hmapeq, hsum]
  simp only [select_utxos_branch_and_bound]
  rw [hnone]

/-- Witness for C5: spendable outputs 6000/4000 and target 5000 have no
exact subset; both selectors agree. -/
theorem C5_fallback_witness :
    select_utxos_branch_and_bound stC5w = select_utxos_largest_first stC5w :=
  C5_fallback stC5w (by decide)

/-- C6: the virtual size the builder computes, `(weight + 3) / 4`, is the
ceiling of `weight / 4`, and the fee it computes, `feeOf`, is the ceiling
of `vsize * fee_rate` (for the non-negative rates the f32 field
represents); `SignedTransaction.new` derives its vsize and weight by the
same formulas. -/
theorem C6_fee_formulas (t : Transaction) (rate : ℚ) (fee : Int) (c : Bool)
    (hr : 0 ≤ rate) :
    ((txVsize t : Nat) : ℤ) = Int.ceil ((weightOf t : ℚ) / 4) ∧
    ((feeOf (txVsize t) rate : Nat) : ℤ) =
      Int.ceil (((txVsize t : Nat) : ℚ) * rate) ∧
    (SignedTransaction.new t fee c).vsize = txVsize t ∧
    (SignedTransaction.new t fee c).weight = weightOf t :=
  ⟨vsize_eq_ceil t, feeOf_eq_ceil (txVsize t) rate hr, rfl, rfl⟩

/-- Witness for C6: the conversion formulas at a concrete one-input
one-output transaction and rate 3/2. -/
theorem C6_fee_formulas_witness :
    ((txVsize txW6 : Nat) : ℤ) = Int.ceil ((weightOf txW6 : ℚ) / 4) ∧
    ((feeOf (txVsize txW6) (3 / 2) : Nat) : ℤ) =
      Int.ceil (((txVsize txW6 : Nat) : ℚ) * (3 / 2)) ∧
    (SignedTransaction.new txW6 85 true).vsize = txVsize txW6 ∧
    (SignedTransaction.new txW6 85 true).weight = weightOf txW6 :=
  C6_fee_formulas txW6 (3 / 2) 85 true (by norm_num)

/-- C7: `build_unsigned` fails with `InsufficientFunds` both when
selection itself fails with it and when the post-selection check
`total_input >= total_output + fee` fails; in particular the spec's
scenario (one 100000-unit spendable output, one 200000-unit payment)
fails with `InsufficientFunds`. -/
theorem C7_insufficient_funds (st : TransactionBuilder)
    (rng : List Utxo → List Utxo) (sel : List Utxo)
    (hne : st.outputs ≠ []) :
    (select_utxos st rng = .error .insufficientFunds →
      build_unsigned st rng = .error .insufficientFunds) ∧
    (select_utxos st rng = .ok sel →
      sumAmounts sel < totalNonChange st.outputs + draftFee st sel →
      build_unsigned st rng = .error .insufficientFunds) ∧
    build_unsigned stC7 rngId = .error .insufficientFunds := by
  refine ⟨?_, ?_, by decide⟩
  · intro hsel
    exact build_unsigned_select_err st rng _ (isEmpty_false_of_ne hne) hsel
  · intro hsel hlt
    exact build_unsigned_shortfall st rng sel (isEmpty_false_of_ne hne) hsel hlt

/-- Witness for C7: the statement instantiated on the spec scenario
state `stC7`. -/
theorem C7_insufficient_funds_witness :
    (select_utxos stC7 rngId = .error .insufficientFunds →
      build_unsigned stC7 rngId = .error .insufficientFunds) ∧
    (select_utxos stC7 rngId = .ok [] →
      sumAmounts [] < totalNonChange stC7.outputs + draftFee stC7 [] →
      build_unsigned stC7 rngId = .error .insufficientFunds) ∧
    build_unsigned stC7 rngId = .error .insufficientFunds :=
  C7_insufficient_funds stC7 rngId [] (by decide)

/-- C8: contrary to the claim, the shuffle configuration is never
consulted: flipping `shuffle_inputs`/`shuffle_outputs` does not change
the built transaction, and on `stC8` (both flags enabled, two selected
inputs) the returned input order is exactly the selection order and the
outputs are exactly the targets in order, while the configured lock-time
and version overrides are applied. -/
theorem C8_no_shuffle :
    (∀ b1 b2 : Bool,
      build_unsigned { stC8 with config :=
        { stC8.config with shuffle_inputs := b1, shuffle_outputs := b2 } } rngId =
      build_unsigned stC8 rngId) ∧
    Except.map (fun tx => tx.input.map (·.previous_output))
      (build_unsigned stC8 rngId) = .ok [(1, 0), (2, 0)] ∧
    Except.map (fun tx => tx.output.map (·.value))
      (build_unsigned stC8 rngId) = .ok [5000] ∧
    Except.map (fun tx => (tx.lock_time, tx.version))
      (build_unsigned stC8 rngId) = .ok (777, 3) := by
  refine ⟨?_, by decide, by decide, by decide⟩
  intro b1 b2
  cases b1 <;> cases b2 <;> decide

/-- C9: for a non-random strategy (and shuffling disabled),
`build_unsigned` is a pure function of the builder state: its result does
not depend on the thread-local randomness, so repeated calls on unchanged
state return identical transactions. -/
theorem C9_idempotent (st : TransactionBuilder)
    (rng1 rng2 : List Utxo → List Utxo)
    (hstrat : st.config.coin_selection ≠ .random)
    (hsi : st.config.shuffle_inputs = false)
    (hso : st.config.shuffle_outputs = false) :
    build_unsigned st rng1 = build_unsigned st rng2 := by
  have hsel : select_utxos st rng1 = select_utxos st rng2 := by
    unfold select_utxos
    cases hc : st.config.coin_selection
    · rfl
    · rfl
    · exact absurd hc hstrat
    · rfl
  rw [build_unsigned_eq, build_unsigned_eq, hsel]

/-- Witness for C9: two different randomness arrangements on `stW9`. -/
theorem C9_idempotent_witness :
    build_unsigned stW9 rngId = build_unsigned stW9 List.reverse :=
  C9_idempotent stW9 rngId List.reverse (by decide) rfl rfl

/-- C10: every input of a built transaction carries the same sequence,
the configured `rbf_sequence` when RBF is enabled and `0xFFFFFFFF`
otherwise, and the builder's stored `SigningInput` records (including
their per-input sequence overrides) are never consulted by
`build_unsigned`. -/
theorem C10_sequence_uniform (st : TransactionBuilder)
    (rng : List Utxo → List Utxo) (tx : Transaction)
    (sins : List SigningInput)
    (h : build_unsigned st rng = .ok tx) :
    (∀ txin ∈ tx.input,
      txin.sequence =
        if st.config.rbf then st.config.rbf_sequence else 4294967295) ∧
    build_unsigned { st with inputs := sins } rng = build_unsigned st rng := by
  constructor
  · intro txin hmem
    obtain ⟨sel, _, hinput⟩ := build_unsigned_ok_input st rng tx h
    rw [hinput] at hmem
    obtain ⟨u, _, rfl⟩ := List.mem_map.mp hmem
    rfl
  · cases st with
    | mk c u o i ca lt v => rfl

/-- Witness for C10: the statement instantiated on `stGoodC1` with a
stored signing input carrying a sequence override. -/
theorem C10_sequence_uniform_witness :
    (∀ txin ∈ txGoodC1.input,
      txin.sequence =
        if stGoodC1.config.rbf then stGoodC1.config.rbf_sequence
        else 4294967295) ∧
    build_unsigned { stGoodC1 with inputs := [sinW10] } rngId =
      build_unsigned stGoodC1 rngId :=
  C10_sequence_uniform stGoodC1 rngId txGoodC1 [sinW10] (by decide)

end Btcx
